import Mathlib

/-!
# Revenue Watchdog — verification of the normalization pipeline and rule engine

Shallow embedding of the core of the Revenue-Watchdog repository:

* `src/config.py` — `COLUMN_MAPPING`, `STANDARD_FIELDS`,
  `HIGH_DISCOUNT_THRESHOLD`, `OPPORTUNITY_COST_FACTOR`;
* `src/core/data_parser.py` — `DataParser._parse_csv` (alias renaming and
  default filling over a pandas DataFrame, then `to_dict('records')`);
* `src/core/llm_interface.py` — `LLMInterface._mock_analysis` (the
  deterministic rule engine) and `LLMInterface.analyze_deals` (the dispatcher);
* `src/utils/helpers.py` — `is_date_past`.

Modelling conventions: Python floats are embedded as exact rationals `ℚ`
(so the float literal `0.1` is the rational `1/10`); a cell value is either a
string or a number (`Value`); a Python dict row is an association list keyed
by strings; raising is `Except.error`; the evaluation instant
`datetime.now()` is an explicit parameter `now : ℚ`, measured in days since
1970-01-01 (fractional part = time of day).
-/

namespace RevenueWatchdog

/-- A raw cell value as it appears in a parsed row: a string or a number.
Python floats/ints are both embedded as `ℚ`. -/
inductive Value where
  | str (s : String)
  | num (q : ℚ)
deriving DecidableEq, Repr

/-- Python truthiness of a cell value: the empty string and the number 0 are
falsy, everything else truthy (used by `if close_date and ...`). -/
def Value.truthy : Value → Bool
  | .str s => if s = "" then false else true
  | .num q => if q = 0 then false else true

/-- A row/record: a Python dict from column names to values, embedded as an
association list (first binding wins on lookup; pandas columns are unique). -/
abbrev Record := List (String × Value)

/-- First-match lookup in a record (Python `dict.__getitem__` / `in`). -/
def recGet : Record → String → Option Value
  | [], _ => none
  | p :: ps, k => if p.1 = k then some p.2 else recGet ps k

/-- Python `deal.get(k, d)`: the bound value, or the default when absent. -/
def Record.getD (r : Record) (k : String) (d : Value) : Value :=
  (recGet r k).getD d

/-! ## Numeric coercion: Python `float(...)`

`float` on a number is the identity; on a string it parses an optional sign
followed by decimal digits with an optional decimal point, and raises
`ValueError` otherwise (modelled as `none`).  Exotic accepted spellings
(exponents, `inf`, `nan`, surrounding whitespace) are not load-bearing for any
claim and are not modelled. -/

/-- Value of a list of decimal digit characters, most significant first. -/
def digitsToNat (cs : List Char) : ℕ :=
  cs.foldl (fun a c => a * 10 + (c.toNat - 48)) 0

/-- Unsigned core of `float(str)`: digits with an optional single dot;
at least one digit overall. -/
def pyFloatNumCore (cs : List Char) : Option ℚ :=
  let ip := cs.takeWhile (fun c => c != '.')
  let rest := cs.dropWhile (fun c => c != '.')
  match rest with
  | [] =>
    if 0 < ip.length ∧ ip.all Char.isDigit then some ((digitsToNat ip : ℚ))
    else none
  | _ :: fp =>
    if (0 < ip.length ∨ 0 < fp.length) ∧ ip.all Char.isDigit ∧ fp.all Char.isDigit then
      some ((digitsToNat ip : ℚ) + (digitsToNat fp : ℚ) / ((10 : ℚ) ^ fp.length))
    else none

/-- `float(s)` for a string `s` (optional leading sign). -/
def pyFloatOfString (s : String) : Option ℚ :=
  match s.data with
  | '-' :: cs => (pyFloatNumCore cs).map Neg.neg
  | '+' :: cs => pyFloatNumCore cs
  | cs => pyFloatNumCore cs

/-- `float(v)` on a cell value: numbers pass through, strings are parsed,
failure is `none` (Python raises `ValueError`). -/
def pyFloat : Value → Option ℚ
  | .num q => some q
  | .str s => pyFloatOfString s

/-! ## Dates: `pandas.to_datetime` and `helpers.is_date_past`

`is_date_past` (src/utils/helpers.py) parses the value with
`pd.to_datetime` and compares the result with `datetime.now()`; any parse
failure is swallowed and yields `False`.  We model timestamps as rationals
counting days since 1970-01-01.  String parsing is modelled on ISO
`YYYY-MM-DD` forms (the only date format the repository's data uses); numbers
are interpreted as nanoseconds since the epoch, as `pd.to_datetime` does. -/

/-- Gregorian leap-year test. -/
def isLeap (y : ℕ) : Bool :=
  (y % 4 == 0 && y % 100 != 0) || (y % 400 == 0)

/-- Length of month `m` of a (non-)leap year. -/
def monthLength (leap : Bool) (m : ℕ) : ℕ :=
  if m = 2 then (if leap then 29 else 28)
  else if m = 4 ∨ m = 6 ∨ m = 9 ∨ m = 11 then 30 else 31

/-- Days in a common year strictly before month `m` (1-indexed). -/
def daysBeforeMonth (m : ℕ) : ℕ :=
  [0, 0, 31, 59, 90, 120, 151, 181, 212, 243, 273, 304, 334].getD m 0

/-- Rata-die style day count of a civil date (proleptic Gregorian, `y ≥ 1`). -/
def rataDie (y m d : ℕ) : ℤ :=
  365 * ((y : ℤ) - 1) + ((y : ℤ) - 1) / 4 - ((y : ℤ) - 1) / 100
    + ((y : ℤ) - 1) / 400
    + (daysBeforeMonth m : ℤ) + (if 2 < m ∧ isLeap y then 1 else 0)
    + ((d : ℤ) - 1)

/-- Day number of a civil date counted from the epoch 1970-01-01. -/
def civilDays (y m d : ℕ) : ℤ :=
  rataDie y m d - rataDie 1970 1 1

/-- Split a character list at every dash (the groups, dashes dropped). -/
def splitDash : List Char → List (List Char)
  | [] => [[]]
  | c :: rest =>
    if c = '-' then [] :: splitDash rest
    else
      match splitDash rest with
      | g :: gs => (c :: g) :: gs
      | [] => [[c]]

/-- A non-empty all-digit character group as a number. -/
def parseNatDigits (cs : List Char) : Option ℕ :=
  if 0 < cs.length ∧ cs.all Char.isDigit then some (digitsToNat cs)
  else none

/-- Parse an ISO `YYYY-MM-DD` date string, validating month and day ranges
(`pd.to_datetime` raises on an invalid calendar date). -/
def parseIsoDate (s : String) : Option (ℕ × ℕ × ℕ) :=
  match splitDash s.data with
  | [ys, ms, ds] =>
    match parseNatDigits ys, parseNatDigits ms, parseNatDigits ds with
    | some y, some m, some d =>
      if 1 ≤ y ∧ 1 ≤ m ∧ m ≤ 12 ∧ 1 ≤ d ∧ d ≤ monthLength (isLeap y) m then
        some (y, m, d)
      else none
    | _, _, _ => none
  | _ => none

/-- Nanoseconds per day (`pd.to_datetime` treats bare numbers as ns). -/
def NS_PER_DAY : ℚ := 86400000000000

/-- `pd.to_datetime` on a cell value, as a timestamp in days since the epoch;
`none` models a raised parse error. -/
def pdToDatetime : Value → Option ℚ
  | .str s => (parseIsoDate s).map (fun t => ((civilDays t.1 t.2.1 t.2.2 : ℤ) : ℚ))
  | .num q => some (q / NS_PER_DAY)

/-- `helpers.is_date_past`: parse and compare with `now`; any exception is
caught and resolves to `False`. -/
def is_date_past (now : ℚ) (v : Value) : Bool :=
  match pdToDatetime v with
  | some t => decide (t < now)
  | none => false

/-! ## Configuration (`src/config.py`) -/

/-- `COLUMN_MAPPING`: alias column names to their targets, in the dict's
insertion order. -/
def COLUMN_MAPPING : List (String × String) :=
  [("customer", "customer_name"),
   ("client", "customer_name"),
   ("account", "customer_name"),
   ("deal_value", "deal_size"),
   ("contract_value", "deal_size"),
   ("amount", "deal_size"),
   ("discount", "discount_percent"),
   ("disc_%", "discount_percent"),
   ("price", "unit_price"),
   ("renewal_date", "renewal"),
   ("close", "close_date"),
   ("status", "deal_status")]

/-- A default for a canonical field: a per-row-index generator (a Python
lambda) or a constant. -/
inductive FieldDefault where
  | gen (g : ℕ → Value)
  | const (v : Value)

/-- The decimal digit characters of `n`, most significant first (`fuel`
bounds the recursion; `natDigits` supplies enough). -/
def natDigitsAux (fuel : ℕ) (n : ℕ) : List Char :=
  match fuel with
  | 0 => []
  | fuel + 1 =>
    if n < 10 then [['0', '1', '2', '3', '4', '5', '6', '7', '8', '9'].getD n '0']
    else natDigitsAux fuel (n / 10)
      ++ [['0', '1', '2', '3', '4', '5', '6', '7', '8', '9'].getD (n % 10) '0']

/-- Decimal rendering of a natural number. -/
def natStr (n : ℕ) : String := String.mk (natDigitsAux (n + 1) n)

/-- Decimal rendering of an integer. -/
def intStr (i : ℤ) : String :=
  if i < 0 then "-" ++ natStr i.natAbs else natStr i.natAbs

/-- Python `f"DEAL_{i:04d}"`'s number part: `i` zero-padded to width 4. -/
def pad4 (i : ℕ) : String :=
  String.mk (List.replicate (4 - (natStr i).length) '0') ++ natStr i

/-- `STANDARD_FIELDS`: the seven canonical fields with their defaults, in the
dict's insertion order. -/
def STANDARD_FIELDS : List (String × FieldDefault) :=
  [("deal_id", .gen (fun i => .str ("DEAL_" ++ pad4 i))),
   ("customer_name", .const (.str "Unknown Customer")),
   ("deal_size", .const (.num 0)),
   ("discount_percent", .const (.num 0)),
   ("close_date", .const (.str "")),
   ("renewal", .const (.str "")),
   ("deal_status", .const (.str "Open"))]

/-- The seven canonical field names. -/
def canonicalFieldNames : List String := STANDARD_FIELDS.map Prod.fst

/-- `HIGH_DISCOUNT_THRESHOLD = 20`. -/
def HIGH_DISCOUNT_THRESHOLD : ℚ := 20

/-- `OPPORTUNITY_COST_FACTOR = 0.1` (the float literal, as an exact
rational). -/
def OPPORTUNITY_COST_FACTOR : ℚ := 1 / 10

/-! ## The Record Normalizer (`DataParser._parse_csv`, src/core/data_parser.py)

A pandas DataFrame is a shared column-name list plus one value list per row
(`Frame`).  `_parse_csv` lower-cases/underscores the column names, applies
the guarded alias renames of `COLUMN_MAPPING` in order, fills each absent
canonical field of `STANDARD_FIELDS` (a constant broadcast, or the
generator evaluated at `range(len(df))`), and returns
`df.to_dict('records')`. -/

/-- A pandas DataFrame: shared column names and the rows' values
(rectangular: every row has one value per column). -/
structure Frame where
  cols : List String
  rows : List (List Value)

/-- `df.rename(columns={a: b})`: every column named `a` becomes `b`. -/
def renameCol (a b : String) (f : Frame) : Frame :=
  { f with cols := f.cols.map (fun c => if c = a then b else c) }

/-- One step of the alias loop: rename `p.1` to `p.2` only when `p.1` is a
column and `p.2` is not (the don't-clobber guard). -/
def mapStep (f : Frame) (p : String × String) : Frame :=
  if p.1 ∈ f.cols ∧ p.2 ∉ f.cols then renameCol p.1 p.2 f else f

/-- The alias loop over a mapping list. -/
def applyMapGo : List (String × String) → Frame → Frame
  | [], f => f
  | p :: ps, f => applyMapGo ps (mapStep f p)

/-- The alias loop over `COLUMN_MAPPING` (first loop of `_parse_csv`). -/
def applyColumnMapping (f : Frame) : Frame := applyMapGo COLUMN_MAPPING f

/-- Evaluate a field default at a row index (constants ignore the index). -/
def defaultAt : FieldDefault → ℕ → Value
  | .gen g, i => g i
  | .const v, _ => v

/-- Append `g i` to row number `i` of every row, `i` counted from `k`
(`df[field] = [default(i) for i in range(len(df))]`, resp. a broadcast). -/
def appendColAux (g : ℕ → Value) : ℕ → List (List Value) → List (List Value)
  | _, [] => []
  | k, r :: rs => (r ++ [g k]) :: appendColAux g (k + 1) rs

/-- One step of the default loop: add the column only when absent. -/
def addField (f : Frame) (fld : String) (d : FieldDefault) : Frame :=
  if fld ∈ f.cols then f
  else { cols := f.cols ++ [fld], rows := appendColAux (defaultAt d) 0 f.rows }

/-- The default loop over a field list. -/
def addDefaultsGo : List (String × FieldDefault) → Frame → Frame
  | [], f => f
  | p :: ps, f => addDefaultsGo ps (addField f p.1 p.2)

/-- The default loop over `STANDARD_FIELDS` (second loop of `_parse_csv`). -/
def addDefaults (f : Frame) : Frame := addDefaultsGo STANDARD_FIELDS f

/-- `df.to_dict('records')`: one dict per row, keys in column order. -/
def toRecords (f : Frame) : List Record :=
  f.rows.map (fun r => f.cols.zip r)

/-- The Normalizer on a frame whose column names are already
lower-cased/underscored (spec §4.1's precondition): alias resolution, then
default filling. -/
def normalizeFrame (f : Frame) : Frame := addDefaults (applyColumnMapping f)

/-- The Normalizer's output records for a name-normalized frame. -/
def normalizeRecords (f : Frame) : List Record := toRecords (normalizeFrame f)

/-- `col.lower().replace(' ', '_')`, the column-name normalization. -/
def normalizeColumnName (c : String) : String :=
  (c.toLower).replace " " "_"

/-- `DataParser._parse_csv` from the in-memory frame on: name
normalization, alias resolution, default filling, `to_dict('records')`. -/
def parse_csv (f : Frame) : List Record :=
  normalizeRecords { f with cols := f.cols.map normalizeColumnName }

/-! ## The Risk Rule Engine (`LLMInterface._mock_analysis`,
src/core/llm_interface.py)

Per deal: `deal_id = deal.get('deal_id', 'Unknown')`,
`deal_size = float(deal.get('deal_size', 0))`,
`discount = float(deal.get('discount_percent', 0))` (a failed coercion
raises, modelled as `Except.error`, aborting the whole loop); Rule 1 flags
`discount > HIGH_DISCOUNT_THRESHOLD`, then Rule 2 flags a truthy, past
`close_date`.  Flags and `total_leakage` accumulate in evaluation order. -/

/-- A flagged issue appended to `flagged_deals`. -/
structure Flag where
  deal_id : Value
  risk_type : String
  impact : ℚ
  suggestion : String
deriving DecidableEq, Repr

/-- Python `str(...)` of a float value, modelled only as far as any claim
needs it (suggestion strings are presentation text no claim constrains). -/
def floatStr (q : ℚ) : String :=
  if q.den = 1 then intStr q.num ++ ".0"
  else intStr q.num ++ "/" ++ natStr q.den

/-- Python `str(...)` of a dict value interpolated into an f-string. -/
def valueStr : Value → String
  | .str s => s
  | .num q => floatStr q

/-- `f'Review {discount}% discount approval for deal {deal_id}'`. -/
def rule1Suggestion (discount : ℚ) (deal_id : Value) : String :=
  "Review " ++ floatStr discount ++ "% discount approval for deal "
    ++ valueStr deal_id

/-- `f'Remove expired deal {deal_id} from pipeline'`. -/
def rule2Suggestion (deal_id : Value) : String :=
  "Remove expired deal " ++ valueStr deal_id ++ " from pipeline"

/-- The rule evaluation of one deal: its flags in order (Rule 1 before
Rule 2), or the coercion error that aborts the batch.  (The source's local
variables `deal_id`, `close_date` are inlined.) -/
def ruleFlags (now : ℚ) (deal : Record) : Except String (List Flag) :=
  match pyFloat (Record.getD deal "deal_size" (.num 0)) with
  | none => .error "could not convert string to float"
  | some deal_size =>
    match pyFloat (Record.getD deal "discount_percent" (.num 0)) with
    | none => .error "could not convert string to float"
    | some discount =>
      .ok
        ((if HIGH_DISCOUNT_THRESHOLD < discount then
            [{ deal_id := Record.getD deal "deal_id" (.str "Unknown"),
               risk_type := "unauthorized_discount",
               impact := deal_size * (discount - HIGH_DISCOUNT_THRESHOLD) / 100,
               suggestion := rule1Suggestion discount
                 (Record.getD deal "deal_id" (.str "Unknown")) }]
          else []) ++
         (if (Record.getD deal "close_date" (.str "")).truthy
              && is_date_past now (Record.getD deal "close_date" (.str "")) then
            [{ deal_id := Record.getD deal "deal_id" (.str "Unknown"),
               risk_type := "phantom_pipeline",
               impact := deal_size * OPPORTUNITY_COST_FACTOR,
               suggestion := rule2Suggestion
                 (Record.getD deal "deal_id" (.str "Unknown")) }]
          else []))

/-- `summary` of the report. -/
structure Summary where
  total_leakage : ℚ
  high_risk_deals : ℕ
  issues_found : ℕ
deriving DecidableEq, Repr

/-- The Analysis Report. -/
structure Report where
  summary : Summary
  flagged_deals : List Flag
  recommendations : List String
deriving DecidableEq, Repr

/-- The three static recommendation strings of the fallback analysis. -/
def RECOMMENDATIONS : List String :=
  ["Implement discount approval workflow",
   "Set up automated pipeline hygiene alerts",
   "Review pricing strategy for renewals"]

/-- The accumulation loop of `_mock_analysis`: flags are appended and each
flag's impact added to the running `total_leakage`, deal by deal. -/
def mockGo (now : ℚ) : List Record → List Flag → ℚ → Except String (List Flag × ℚ)
  | [], flags, total => .ok (flags, total)
  | d :: ds, flags, total =>
    match ruleFlags now d with
    | .error e => .error e
    | .ok fs => mockGo now ds (flags ++ fs) (total + (fs.map Flag.impact).sum)

/-- `LLMInterface._mock_analysis`: the full fallback report, or the first
coercion error. -/
def mock_analysis (now : ℚ) (parsed_data : List Record) : Except String Report :=
  match mockGo now parsed_data [] 0 with
  | .error e => .error e
  | .ok (flags, total) =>
    .ok { summary := { total_leakage := total,
                       high_risk_deals := flags.length,
                       issues_found := flags.length },
          flagged_deals := flags,
          recommendations := RECOMMENDATIONS }

/-! ## The Analysis Dispatcher (`LLMInterface.analyze_deals`,
src/core/llm_interface.py)

With an empty `api_key` the dispatcher is `_mock_analysis`.  Otherwise it
posts to the provider inside a `try`: any exception (network failure,
timeout, a response body without the expected `choices` path) falls back to
`_mock_analysis`; a non-200 status falls back; on a 200 the message content
is fed to `json.loads` — a successful parse is returned as-is (whatever its
shape), a `JSONDecodeError` goes to `_parse_llm_response`, which delegates
to `_mock_analysis`.  The provider interaction is embedded as the abstract
outcome `PostResult`; its `resp` case carries the status code and the result
of `json.loads` on the extracted message content. -/

/-- A JSON value, the shape-agnostic result of `json.loads`. -/
inductive Json where
  | null
  | bool (b : Bool)
  | num (q : ℚ)
  | str (s : String)
  | arr (xs : List Json)
  | obj (kvs : List (String × Json))

/-- A cell value as JSON. -/
def valueToJson : Value → Json
  | .str s => .str s
  | .num q => .num q

/-- A flag dict as JSON. -/
def Flag.toJson (fl : Flag) : Json :=
  .obj [("deal_id", valueToJson fl.deal_id),
        ("risk_type", .str fl.risk_type),
        ("impact", .num fl.impact),
        ("suggestion", .str fl.suggestion)]

/-- The report dict as JSON (the common type of the dispatcher's two
possible returns). -/
def Report.toJson (r : Report) : Json :=
  .obj [("summary", .obj [("total_leakage", .num r.summary.total_leakage),
                          ("high_risk_deals", .num (r.summary.high_risk_deals : ℚ)),
                          ("issues_found", .num (r.summary.issues_found : ℚ))]),
        ("flagged_deals", .arr (r.flagged_deals.map Flag.toJson)),
        ("recommendations", .arr (r.recommendations.map Json.str))]

/-- Outcome of the `requests.post` call and response unpacking: an exception
anywhere in the `try` block, or a response with its status code and the
result of `json.loads` on the extracted message content (`none` =
`JSONDecodeError`). -/
inductive PostResult where
  | exn
  | resp (status : ℕ) (content : Option Json)

/-- `LLMInterface.analyze_deals`: route to the provider or to the rule
engine, with fallback to `_mock_analysis` on every provider-side failure. -/
def analyze_deals (api_key : String) (post : PostResult) (now : ℚ)
    (parsed_data : List Record) : Except String Json :=
  if api_key = "" then (mock_analysis now parsed_data).map Report.toJson
  else
    match post with
    | .exn => (mock_analysis now parsed_data).map Report.toJson
    | .resp status content =>
      if status = 200 then
        match content with
        | some j => .ok j
        | none => (mock_analysis now parsed_data).map Report.toJson
      else (mock_analysis now parsed_data).map Report.toJson

/-- Modelled from the spec: the "expected structured report shape" of §4.3 /
§6 — a JSON object carrying the report's three top-level keys.  The
dispatcher's code never checks this; the definition exists to compare the
spec's routing contract with the code's. -/
def expectedReportShape : Json → Bool
  | .obj kvs => ((kvs.map Prod.fst).contains "summary")
      && ((kvs.map Prod.fst).contains "flagged_deals")
      && ((kvs.map Prod.fst).contains "recommendations")
  | _ => false

deriving instance DecidableEq for Except

/-! ## Lemmas about the rule engine -/

theorem truthy_str_iff (s : String) : (Value.str s).truthy = true ↔ s ≠ "" := by
  by_cases h : s = "" <;> simp [Value.truthy, h]

theorem is_date_past_iff (now : ℚ) (v : Value) :
    is_date_past now v = true ↔ ∃ t, pdToDatetime v = some t ∧ t < now := by
  unfold is_date_past
  cases h : pdToDatetime v <;> simp

theorem getD_eq_default_of_none {r : Record} {k : String} (d : Value)
    (h : recGet r k = none) : Record.getD r k d = d := by
  simp [Record.getD, h]

/-- Membership in the two-rule flag list: one of the two conditions holds
and the flag is the corresponding one. -/
theorem mem_rulePair {c1 c2 : Prop} [Decidable c1] [Decidable c2]
    {a b fl : Flag} :
    (fl ∈ (if c1 then [a] else []) ++ (if c2 then [b] else [])) ↔
      (c1 ∧ fl = a) ∨ (c2 ∧ fl = b) := by
  by_cases h1 : c1 <;> by_cases h2 : c2 <;> simp [h1, h2]

/-- C1.  Rule 1 (unauthorized discount): with `deal_size` and
`discount_percent` coercing to the numbers `ds` and `dp`, the Rule Engine
produces flags for the record, among which an `unauthorized_discount` flag
exists if and only if `dp > 20`; every such flag's impact is
`ds * (dp - 20) / 100`; and at `dp = 20` exactly, no `unauthorized_discount`
flag is produced (strict inequality). -/
theorem rule1_unauthorized_discount (now : ℚ) (deal : Record) (ds dp : ℚ)
    (hds : pyFloat (Record.getD deal "deal_size" (.num 0)) = some ds)
    (hdp : pyFloat (Record.getD deal "discount_percent" (.num 0)) = some dp) :
    ∃ fs, ruleFlags now deal = .ok fs ∧
      ((∃ fl ∈ fs, fl.risk_type = "unauthorized_discount") ↔ 20 < dp) ∧
      (∀ fl ∈ fs, fl.risk_type = "unauthorized_discount" →
        fl.impact = ds * (dp - 20) / 100) ∧
      (dp = 20 → ∀ fl ∈ fs, fl.risk_type ≠ "unauthorized_discount") := by
  unfold ruleFlags
  rw [hds, hdp]
  refine ⟨_, rfl, ?_, ?_, ?_⟩
  · constructor
    · rintro ⟨fl, hmem, hrt⟩
      rcases mem_rulePair.1 hmem with ⟨hc, rfl⟩ | ⟨hc, rfl⟩
      · simpa [HIGH_DISCOUNT_THRESHOLD] using hc
      · simp at hrt
    · intro h
      exact ⟨_, mem_rulePair.2 (Or.inl
        ⟨by simpa [HIGH_DISCOUNT_THRESHOLD] using h, rfl⟩), rfl⟩
  · intro fl hmem hrt
    rcases mem_rulePair.1 hmem with ⟨hc, rfl⟩ | ⟨hc, rfl⟩
    · rfl
    · simp at hrt
  · intro h20 fl hmem
    rcases mem_rulePair.1 hmem with ⟨hc, rfl⟩ | ⟨hc, rfl⟩
    · subst h20
      simp [HIGH_DISCOUNT_THRESHOLD] at hc
    · simp

/-- Closed instance of `rule1_unauthorized_discount`: a concrete record with
a 30 % discount on a 10000 deal is flagged with impact 1000. -/
theorem rule1_unauthorized_discount_witness :
    ∃ fs, ruleFlags 0 [("deal_id", Value.str "D1"), ("deal_size", Value.num 10000),
        ("discount_percent", Value.num 30)] = .ok fs ∧
      ((∃ fl ∈ fs, fl.risk_type = "unauthorized_discount") ↔ 20 < (30 : ℚ)) ∧
      (∀ fl ∈ fs, fl.risk_type = "unauthorized_discount" →
        fl.impact = 10000 * ((30 : ℚ) - 20) / 100) ∧
      ((30 : ℚ) = 20 → ∀ fl ∈ fs, fl.risk_type ≠ "unauthorized_discount") :=
  rule1_unauthorized_discount 0
    [("deal_id", Value.str "D1"), ("deal_size", Value.num 10000),
     ("discount_percent", Value.num 30)] 10000 30 (by rfl) (by rfl)

/-- C2.  Rule 2 (phantom pipeline): with the numeric coercions succeeding
and `close_date` the string `s`, the record's evaluation succeeds (no error
is ever raised by the date check, parseable or not), and a
`phantom_pipeline` flag is produced if and only if `s` is non-empty and
parses to a date strictly before the evaluation instant `now`; every such
flag's impact is `deal_size * OPPORTUNITY_COST_FACTOR` (= 0.1). -/
theorem rule2_phantom_pipeline (now : ℚ) (deal : Record) (ds dp : ℚ) (s : String)
    (hds : pyFloat (Record.getD deal "deal_size" (.num 0)) = some ds)
    (hdp : pyFloat (Record.getD deal "discount_percent" (.num 0)) = some dp)
    (hcd : Record.getD deal "close_date" (.str "") = .str s) :
    ∃ fs, ruleFlags now deal = .ok fs ∧
      ((∃ fl ∈ fs, fl.risk_type = "phantom_pipeline") ↔
        s ≠ "" ∧ ∃ t, pdToDatetime (.str s) = some t ∧ t < now) ∧
      (∀ fl ∈ fs, fl.risk_type = "phantom_pipeline" →
        fl.impact = ds * OPPORTUNITY_COST_FACTOR) := by
  have hcond : ((Value.str s).truthy && is_date_past now (Value.str s)) = true ↔
      (s ≠ "" ∧ ∃ t, pdToDatetime (.str s) = some t ∧ t < now) := by
    rw [Bool.and_eq_true, truthy_str_iff, is_date_past_iff]
  unfold ruleFlags
  rw [hds, hdp, hcd]
  refine ⟨_, rfl, ?_, ?_⟩
  · constructor
    · rintro ⟨fl, hmem, hrt⟩
      rcases mem_rulePair.1 hmem with ⟨hc, rfl⟩ | ⟨hc, rfl⟩
      · simp at hrt
      · exact hcond.1 hc
    · intro h
      exact ⟨_, mem_rulePair.2 (Or.inr ⟨hcond.2 h, rfl⟩), rfl⟩
  · intro fl hmem hrt
    rcases mem_rulePair.1 hmem with ⟨hc, rfl⟩ | ⟨hc, rfl⟩
    · simp at hrt
    · rfl

/-- Closed instance of `rule2_phantom_pipeline`: a deal closed 2020-01-01,
evaluated at day 20000 (mid-2024), is flagged with impact `5000 * 0.1`. -/
theorem rule2_phantom_pipeline_witness :
    ∃ fs, ruleFlags 20000 [("deal_size", Value.num 5000),
        ("close_date", Value.str "2020-01-01")] = .ok fs ∧
      ((∃ fl ∈ fs, fl.risk_type = "phantom_pipeline") ↔
        "2020-01-01" ≠ "" ∧
          ∃ t, pdToDatetime (.str "2020-01-01") = some t ∧ t < 20000) ∧
      (∀ fl ∈ fs, fl.risk_type = "phantom_pipeline" →
        fl.impact = 5000 * OPPORTUNITY_COST_FACTOR) :=
  rule2_phantom_pipeline 20000
    [("deal_size", Value.num 5000), ("close_date", Value.str "2020-01-01")]
    5000 0 "2020-01-01" (by rfl) (by rfl) (by rfl)

/-- C10.  Rule Engine totality on missing fields: a record with no
`deal_id` binding gets the string `Unknown` in every flag it produces;
missing `deal_size`, `discount_percent`, `close_date` bindings resolve to
`0`, `0` and the empty string; and a record missing all four fields
evaluates without error to no flags at all. -/
theorem engine_missing_fields (now : ℚ) (deal : Record)
    (hid : recGet deal "deal_id" = none) :
    (∀ fs, ruleFlags now deal = .ok fs →
      ∀ fl ∈ fs, fl.deal_id = .str "Unknown") ∧
    (recGet deal "deal_size" = none →
      Record.getD deal "deal_size" (.num 0) = .num 0) ∧
    (recGet deal "discount_percent" = none →
      Record.getD deal "discount_percent" (.num 0) = .num 0) ∧
    (recGet deal "close_date" = none →
      Record.getD deal "close_date" (.str "") = .str "") ∧
    (recGet deal "deal_size" = none → recGet deal "discount_percent" = none →
      recGet deal "close_date" = none → ruleFlags now deal = .ok []) := by
  refine ⟨?_, fun h => getD_eq_default_of_none _ h,
      fun h => getD_eq_default_of_none _ h,
      fun h => getD_eq_default_of_none _ h, ?_⟩
  · intro fs hfs fl hfl
    unfold ruleFlags at hfs
    rw [getD_eq_default_of_none _ hid] at hfs
    cases hds : pyFloat (Record.getD deal "deal_size" (Value.num 0)) <;>
      rw [hds] at hfs
    · cases hfs
    cases hdp : pyFloat (Record.getD deal "discount_percent" (Value.num 0)) <;>
      rw [hdp] at hfs
    · cases hfs
    injection hfs with hfs
    subst hfs
    rcases mem_rulePair.1 hfl with ⟨hc, rfl⟩ | ⟨hc, rfl⟩ <;> rfl
  · intro h1 h2 h3
    unfold ruleFlags
    rw [getD_eq_default_of_none _ h1, getD_eq_default_of_none _ h2,
      getD_eq_default_of_none _ h3]
    norm_num [pyFloat, HIGH_DISCOUNT_THRESHOLD, Value.truthy]

/-- Closed instance of `engine_missing_fields` at a record carrying only an
unrelated column. -/
theorem engine_missing_fields_witness :
    (∀ fs, ruleFlags 0 [("note", Value.str "x")] = .ok fs →
      ∀ fl ∈ fs, fl.deal_id = .str "Unknown") ∧
    (recGet [("note", Value.str "x")] "deal_size" = none →
      Record.getD [("note", Value.str "x")] "deal_size" (.num 0) = .num 0) ∧
    (recGet [("note", Value.str "x")] "discount_percent" = none →
      Record.getD [("note", Value.str "x")] "discount_percent" (.num 0) = .num 0) ∧
    (recGet [("note", Value.str "x")] "close_date" = none →
      Record.getD [("note", Value.str "x")] "close_date" (.str "") = .str "") ∧
    (recGet [("note", Value.str "x")] "deal_size" = none →
      recGet [("note", Value.str "x")] "discount_percent" = none →
      recGet [("note", Value.str "x")] "close_date" = none →
      ruleFlags 0 [("note", Value.str "x")] = .ok []) :=
  engine_missing_fields 0 [("note", Value.str "x")] (by rfl)

/-- The running total of `_mock_analysis` stays the sum of the accumulated
flags' impacts (exact rational arithmetic). -/
theorem mockGo_total_sum (now : ℚ) :
    ∀ (ds : List Record) (flags : List Flag) (total : ℚ)
      (flags' : List Flag) (total' : ℚ),
      mockGo now ds flags total = .ok (flags', total') →
      total = (flags.map Flag.impact).sum →
      total' = (flags'.map Flag.impact).sum := by
  intro ds
  induction ds with
  | nil =>
    intro flags total flags' total' h hinv
    unfold mockGo at h
    injection h with h
    cases h
    exact hinv
  | cons d ds ih =>
    intro flags total flags' total' h hinv
    unfold mockGo at h
    cases hr : ruleFlags now d <;> rw [hr] at h
    · cases h
    · exact ih _ _ _ _ h (by simp [hinv])

/-- C3.  Summary correctness: whenever `_mock_analysis` produces a report,
its `total_leakage` is the sum of the impacts of `flagged_deals` (in
evaluation order) and `high_risk_deals` and `issues_found` both equal the
number of flagged deals; the empty batch yields the report with
`total_leakage = 0` and no flagged deals. -/
theorem summary_correct (now : ℚ) (data : List Record) (r : Report)
    (h : mock_analysis now data = .ok r) :
    r.summary.total_leakage = (r.flagged_deals.map Flag.impact).sum ∧
    r.summary.high_risk_deals = r.flagged_deals.length ∧
    r.summary.issues_found = r.flagged_deals.length ∧
    mock_analysis now [] =
      .ok ⟨⟨0, 0, 0⟩, [], RECOMMENDATIONS⟩ := by
  unfold mock_analysis at h
  cases hm : mockGo now data [] 0 <;> rw [hm] at h
  · cases h
  case ok p =>
    obtain ⟨flags, total⟩ := p
    injection h with h
    subst h
    exact ⟨mockGo_total_sum now data [] 0 flags total hm (by simp), rfl, rfl, rfl⟩

/-- The report of a one-deal batch (10000 at 30 % discount, no close date):
one flag of impact 1000. -/
def stdReport : Report :=
  { summary := { total_leakage := 1000, high_risk_deals := 1, issues_found := 1 },
    flagged_deals :=
      [{ deal_id := .str "D1", risk_type := "unauthorized_discount",
         impact := 1000,
         suggestion := "Review 30.0% discount approval for deal D1" }],
    recommendations := RECOMMENDATIONS }

/-- Closed instance of `summary_correct` on a one-deal batch producing one
flag of impact 1000. -/
theorem summary_correct_witness :
    (stdReport.summary.total_leakage =
      (stdReport.flagged_deals.map Flag.impact).sum) ∧
    stdReport.summary.high_risk_deals = stdReport.flagged_deals.length ∧
    stdReport.summary.issues_found = stdReport.flagged_deals.length ∧
    mock_analysis 0 [] = .ok ⟨⟨0, 0, 0⟩, [], RECOMMENDATIONS⟩ :=
  summary_correct 0
    [[("deal_id", .str "D1"), ("deal_size", .num 10000),
      ("discount_percent", .num 30)]]
    stdReport (by
      unfold mock_analysis mockGo ruleFlags
      norm_num +decide [Record.getD, recGet, pyFloat, HIGH_DISCOUNT_THRESHOLD,
        Value.truthy, is_date_past, pdToDatetime, stdReport, rule1Suggestion,
        floatStr, valueStr, intStr, natStr, natDigitsAux, RECOMMENDATIONS])

/-! ## Lemmas about the Normalizer -/

theorem mapStep_rows (f : Frame) (p : String × String) :
    (mapStep f p).rows = f.rows := by
  unfold mapStep renameCol
  split <;> rfl

theorem applyMapGo_rows : ∀ (m : List (String × String)) (f : Frame),
    (applyMapGo m f).rows = f.rows
  | [], _ => rfl
  | p :: ps, f => by
    rw [applyMapGo, applyMapGo_rows ps, mapStep_rows]

theorem appendColAux_length (g : ℕ → Value) : ∀ (k : ℕ) (rs : List (List Value)),
    (appendColAux g k rs).length = rs.length
  | _, [] => rfl
  | k, r :: rs => by
    simp [appendColAux, appendColAux_length g (k + 1) rs]

theorem addField_rows_length (f : Frame) (fld : String) (d : FieldDefault) :
    (addField f fld d).rows.length = f.rows.length := by
  unfold addField
  split
  · rfl
  · simp [appendColAux_length]

theorem addDefaultsGo_rows_length : ∀ (s : List (String × FieldDefault)) (f : Frame),
    (addDefaultsGo s f).rows.length = f.rows.length
  | [], _ => rfl
  | p :: ps, f => by
    rw [addDefaultsGo, addDefaultsGo_rows_length ps, addField_rows_length]

/-- The Normalizer is total and order/length-preserving: one output record
per input row, whatever the rows contain. -/
theorem normalizeRecords_length (f : Frame) :
    (normalizeRecords f).length = f.rows.length := by
  unfold normalizeRecords toRecords normalizeFrame addDefaults applyColumnMapping
  rw [List.length_map, addDefaultsGo_rows_length, applyMapGo_rows]

/-- A record whose `deal_size` or `discount_percent` does not coerce makes
`ruleFlags` raise. -/
theorem ruleFlags_error_of_bad (now : ℚ) (bad : Record)
    (hbad : pyFloat (Record.getD bad "deal_size" (.num 0)) = none ∨
            pyFloat (Record.getD bad "discount_percent" (.num 0)) = none) :
    ∃ e, ruleFlags now bad = .error e := by
  unfold ruleFlags
  rcases hbad with h | h
  · rw [h]
    exact ⟨_, rfl⟩
  · cases hds : pyFloat (Record.getD bad "deal_size" (Value.num 0))
    · exact ⟨_, rfl⟩
    · rw [h]
      exact ⟨_, rfl⟩

/-- The analysis loop aborts with the first raising record, whatever comes
after it. -/
theorem mockGo_abort (now : ℚ) (bad : Record) (rest : List Record)
    (hbad : ∃ e, ruleFlags now bad = .error e) (pre : List Record)
    (hpre : ∀ r ∈ pre, ∃ fs, ruleFlags now r = .ok fs) :
    ∀ flags total, ∃ e, mockGo now (pre ++ bad :: rest) flags total = .error e := by
  induction pre with
  | nil =>
    intro flags total
    obtain ⟨e, he⟩ := hbad
    refine ⟨e, ?_⟩
    simp only [List.nil_append]
    unfold mockGo
    rw [he]
  | cons r pre ih =>
    intro flags total
    obtain ⟨fs, hfs⟩ := hpre r (by simp)
    obtain ⟨e, he⟩ := ih (fun x hx => hpre x (by simp [hx])) (flags ++ fs)
      (total + (fs.map Flag.impact).sum)
    refine ⟨e, ?_⟩
    simp only [List.cons_append]
    unfold mockGo
    rw [hfs]
    exact he

/-- C7.  Coercion-error policy: normalization never validates or rejects a
value — it returns one record per input row whatever the values are — while
the fallback analysis of a batch whose first non-coercible record is `bad`
(records before it all evaluate cleanly) raises a hard error, aborting the
whole batch. -/
theorem coercion_error_policy (now : ℚ) (pre rest : List Record) (bad : Record)
    (hbad : pyFloat (Record.getD bad "deal_size" (.num 0)) = none ∨
            pyFloat (Record.getD bad "discount_percent" (.num 0)) = none)
    (hpre : ∀ r ∈ pre, ∃ fs, ruleFlags now r = .ok fs) :
    (∀ f : Frame, (normalizeRecords f).length = f.rows.length) ∧
    ∃ e, mock_analysis now (pre ++ bad :: rest) = .error e := by
  refine ⟨fun f => normalizeRecords_length f, ?_⟩
  obtain ⟨e, he⟩ :=
    mockGo_abort now bad rest (ruleFlags_error_of_bad now bad hbad) pre hpre [] 0
  refine ⟨e, ?_⟩
  unfold mock_analysis
  rw [he]

/-- Closed instance of `coercion_error_policy`: the batch whose only record
has the non-numeric `deal_size` string `"abc"` aborts with an error. -/
theorem coercion_error_policy_witness :
    ((∀ f : Frame, (normalizeRecords f).length = f.rows.length) ∧
    ∃ e, mock_analysis 0 ([] ++ [("deal_size", Value.str "abc")] :: []) =
      .error e) :=
  coercion_error_policy 0 [] [] [("deal_size", Value.str "abc")]
    (Or.inl (by rfl)) (by simp)

theorem applyMapGo_cols_length : ∀ (m : List (String × String)) (f : Frame),
    (applyMapGo m f).cols.length = f.cols.length
  | [], _ => rfl
  | p :: ps, f => by
    rw [applyMapGo, applyMapGo_cols_length ps]
    unfold mapStep renameCol
    split <;> simp

/-- Positions holding `c` are unchanged by a renaming map that fixes
`c`-ness. -/
theorem map_getElem_some_iff {σ : String → String} {l : List String} {c : String}
    (hσ : ∀ x, σ x = c ↔ x = c) (i : ℕ) :
    (l.map σ)[i]? = some c ↔ l[i]? = some c := by
  rw [List.getElem?_map]
  cases l[i]? <;> simp [hσ]

/-- Pointwise stability of a column name `c` through the alias loop: if `c`
is a column, and every mapping entry keyed `c` targets an existing column
that is itself no mapping key, then the positions of `c` among the columns
are exactly preserved (and `c` stays a column). -/
theorem applyMapGo_stable (c : String) : ∀ (m : List (String × String)) (f : Frame),
    c ∈ f.cols →
    (∀ p ∈ m, p.1 = c → p.2 ∈ f.cols ∧ p.2 ∉ m.map Prod.fst) →
    (∀ i : ℕ, (applyMapGo m f).cols[i]? = some c ↔ f.cols[i]? = some c) ∧
      c ∈ (applyMapGo m f).cols
  | [], f, hcm, _ => ⟨fun _ => Iff.rfl, hcm⟩
  | p :: ps, f, hcm, hk => by
    rw [applyMapGo]
    unfold mapStep
    split
    case isTrue hg =>
      have hp1 : p.1 ≠ c := by
        intro h
        exact hg.2 ((hk p (by simp) h).1)
      have hp2 : p.2 ≠ c := by
        intro h
        rw [h] at hg
        exact hg.2 hcm
      have hσ : ∀ x, (if x = p.1 then p.2 else x) = c ↔ x = c := by
        intro x
        by_cases hx : x = p.1
        · subst hx
          simp [hp1, hp2]
        · simp [hx]
      have hcm' : c ∈ (renameCol p.1 p.2 f).cols := by
        unfold renameCol
        exact List.mem_map.2 ⟨c, hcm, (hσ c).2 rfl⟩
      have hk' : ∀ q ∈ ps, q.1 = c →
          q.2 ∈ (renameCol p.1 p.2 f).cols ∧ q.2 ∉ ps.map Prod.fst := by
        intro q hq hqc
        obtain ⟨hmem, hnk⟩ := hk q (by simp [hq]) hqc
        refine ⟨?_, fun h => hnk (by simp [h])⟩
        unfold renameCol
        refine List.mem_map.2 ⟨q.2, hmem, ?_⟩
        have : q.2 ≠ p.1 := fun h => hnk (by simp [h])
        simp [this]
      obtain ⟨hiff, hmem⟩ := applyMapGo_stable c ps (renameCol p.1 p.2 f) hcm' hk'
      refine ⟨fun i => ?_, hmem⟩
      rw [hiff i]
      exact map_getElem_some_iff hσ i
    case isFalse =>
      exact applyMapGo_stable c ps f hcm
        (fun q hq hqc =>
          ⟨(hk q (by simp [hq]) hqc).1,
           fun h => (hk q (by simp [hq]) hqc).2 (by simp [h])⟩)

/-- A name that is no column and no mapping target stays no column. -/
theorem applyMapGo_not_mem (c : String) : ∀ (m : List (String × String)) (f : Frame),
    c ∉ f.cols → (∀ p ∈ m, p.2 ≠ c) → c ∉ (applyMapGo m f).cols
  | [], _, hnm, _ => hnm
  | p :: ps, f, hnm, hnt => by
    rw [applyMapGo]
    unfold mapStep
    split
    case isTrue =>
      refine applyMapGo_not_mem c ps _ ?_ (fun q hq => hnt q (by simp [hq]))
      unfold renameCol
      intro hmem
      obtain ⟨x, hx, hxc⟩ := List.mem_map.1 hmem
      by_cases hxp : x = p.1
      · rw [if_pos hxp] at hxc
        exact hnt p (by simp) hxc
      · rw [if_neg hxp] at hxc
        exact hnm (hxc ▸ hx)
    case isFalse =>
      exact applyMapGo_not_mem c ps f hnm (fun q hq => hnt q (by simp [hq]))

/-- First-match lookup in a zipped record only depends on the positions of
the key among the columns. -/
theorem recGet_zip_congr (c : String) : ∀ (cs cs' : List String) (row : List Value),
    cs.length = cs'.length →
    (∀ i : ℕ, cs[i]? = some c ↔ cs'[i]? = some c) →
    recGet (cs.zip row) c = recGet (cs'.zip row) c
  | [], [], _, _, _ => rfl
  | [], _ :: _, _, hlen, _ => by cases hlen
  | _ :: _, [], _, hlen, _ => by cases hlen
  | x :: xs, y :: ys, [], _, _ => by simp [List.zip, recGet]
  | x :: xs, y :: ys, v :: vs, hlen, hiff => by
    have h0 : x = c ↔ y = c := by
      have := hiff 0
      simpa using this
    by_cases hx : x = c
    · simp [List.zip, recGet, hx, h0.1 hx]
    · have hy : ¬ y = c := fun h => hx (h0.2 h)
      simp only [List.zip_cons_cons, recGet, if_neg hx, if_neg hy]
      exact recGet_zip_congr c xs ys vs (by simpa using hlen)
        (fun i => by simpa using hiff (i + 1))

/-- Lookup misses every pair whose key is not the asked column. -/
theorem recGet_zip_none (c : String) : ∀ (cs : List String) (row : List Value),
    c ∉ cs → recGet (cs.zip row) c = none
  | [], _, _ => rfl
  | _ :: _, [], _ => by simp [List.zip, recGet]
  | x :: xs, v :: vs, hnm => by
    have hx : ¬ x = c := fun h => hnm (by simp [h])
    simp only [List.zip_cons_cons, recGet, if_neg hx]
    exact recGet_zip_none c xs vs (fun h => hnm (by simp [h]))

/-- Lookup hits when the key is a column and the row is long enough. -/
theorem recGet_zip_isSome (c : String) : ∀ (cs : List String) (row : List Value),
    c ∈ cs → cs.length = row.length → ∃ v, recGet (cs.zip row) c = some v
  | [], _, hmem, _ => absurd hmem (by simp)
  | _ :: _, [], _, hlen => by cases hlen
  | x :: xs, v :: vs, hmem, hlen => by
    by_cases hx : x = c
    · exact ⟨v, by simp [List.zip, recGet, hx]⟩
    · have : c ∈ xs := by
        rcases List.mem_cons.1 hmem with h | h
        · exact absurd h.symm hx
        · exact h
      obtain ⟨w, hw⟩ := recGet_zip_isSome c xs vs this (by simpa using hlen)
      refine ⟨w, ?_⟩
      rw [List.zip_cons_cons, recGet, if_neg hx]
      exact hw

theorem recGet_append_left {r₁ r₂ : Record} {c : String} {v : Value}
    (h : recGet r₁ c = some v) : recGet (r₁ ++ r₂) c = some v := by
  induction r₁ with
  | nil => cases h
  | cons p ps ih =>
    by_cases hp : p.1 = c
    · simpa [recGet, hp] using h
    · rw [recGet, if_neg hp] at h
      simpa [recGet, hp] using ih h

theorem recGet_append_none {r₁ r₂ : Record} {c : String}
    (h : recGet r₁ c = none) : recGet (r₁ ++ r₂) c = recGet r₂ c := by
  induction r₁ with
  | nil => rfl
  | cons p ps ih =>
    by_cases hp : p.1 = c
    · rw [recGet, if_pos hp] at h
      cases h
    · rw [recGet, if_neg hp] at h
      simpa [recGet, hp] using ih h

theorem appendColAux_getElem (g : ℕ → Value) : ∀ (k : ℕ) (rs : List (List Value)) (i : ℕ),
    (appendColAux g k rs)[i]? = (rs[i]?).map (fun r => r ++ [g (k + i)])
  | _, [], i => by simp [appendColAux]
  | _, r :: rs, 0 => by simp [appendColAux]
  | k, r :: rs, i + 1 => by
    simp only [appendColAux, List.getElem?_cons_succ]
    rw [appendColAux_getElem g (k + 1) rs i]
    have : k + 1 + i = k + (i + 1) := by omega
    rw [this]

/-- The default loop only appends columns: the original columns are a prefix
of the result and every row is extended by one appended value per appended
column. -/
theorem addDefaultsGo_decompose : ∀ (s : List (String × FieldDefault)) (f : Frame),
    ∃ t : List String, (addDefaultsGo s f).cols = f.cols ++ t ∧
      ∀ i : ℕ, ∀ r, f.rows[i]? = some r → ∃ tv : List Value,
        (addDefaultsGo s f).rows[i]? = some (r ++ tv) ∧ tv.length = t.length
  | [], f => ⟨[], by simp [addDefaultsGo], fun i r hr =>
      ⟨[], by simp [addDefaultsGo, hr], rfl⟩⟩
  | p :: ps, f => by
    rw [addDefaultsGo]
    unfold addField
    split
    case isTrue h =>
      exact addDefaultsGo_decompose ps f
    case isFalse h =>
      obtain ⟨t, hcols, hrows⟩ := addDefaultsGo_decompose ps
        ⟨f.cols ++ [p.1], appendColAux (defaultAt p.2) 0 f.rows⟩
      refine ⟨p.1 :: t, ?_, ?_⟩
      · rw [hcols]
        simp
      · intro i r hr
        have h1 : (appendColAux (defaultAt p.2) 0 f.rows)[i]? =
            some (r ++ [defaultAt p.2 i]) := by
          rw [appendColAux_getElem]
          simp [hr]
        obtain ⟨tv, htv, hlen⟩ := hrows i (r ++ [defaultAt p.2 i]) h1
        refine ⟨defaultAt p.2 i :: tv, ?_, by simp [hlen]⟩
        rw [List.append_assoc] at htv
        simpa using htv

theorem addField_mem_mono {f : Frame} {c : String} (fld : String) (d : FieldDefault)
    (h : c ∈ f.cols) : c ∈ (addField f fld d).cols := by
  unfold addField
  split
  · exact h
  · simp [h]

theorem addField_mem_self (f : Frame) (fld : String) (d : FieldDefault) :
    fld ∈ (addField f fld d).cols := by
  unfold addField
  split
  case isTrue h => exact h
  case isFalse => simp

theorem addDefaultsGo_mem_mono : ∀ (s : List (String × FieldDefault)) {f : Frame}
    {c : String}, c ∈ f.cols → c ∈ (addDefaultsGo s f).cols
  | [], _, _, h => h
  | p :: ps, _, _, h => addDefaultsGo_mem_mono ps (addField_mem_mono p.1 p.2 h)

/-- After the default loop, every listed field name is a column. -/
theorem addDefaultsGo_mem_fields : ∀ (s : List (String × FieldDefault)) (f : Frame)
    (fld : String), fld ∈ s.map Prod.fst → fld ∈ (addDefaultsGo s f).cols
  | [], _, _, h => absurd h (by simp)
  | p :: ps, f, fld, h => by
    rw [addDefaultsGo]
    rw [List.map_cons] at h
    rcases List.mem_cons.1 h with h1 | h1
    · rw [h1]
      exact addDefaultsGo_mem_mono ps (addField_mem_self f p.1 p.2)
    · exact addDefaultsGo_mem_fields ps _ fld h1

theorem appendColAux_rect (g : ℕ → Value) : ∀ (k : ℕ) (rs : List (List Value)) (n : ℕ),
    (∀ r ∈ rs, r.length = n) → ∀ r ∈ appendColAux g k rs, r.length = n + 1
  | _, [], _, _ => by simp [appendColAux]
  | k, r :: rs, n, h => by
    intro x hx
    rcases List.mem_cons.1 (by simpa [appendColAux] using hx) with h1 | h1
    · rw [h1]
      simp [h r (by simp)]
    · exact appendColAux_rect g (k + 1) rs n (fun y hy => h y (by simp [hy])) x h1

theorem addField_rect {f : Frame} (fld : String) (d : FieldDefault)
    (hrect : ∀ r ∈ f.rows, r.length = f.cols.length) :
    ∀ r ∈ (addField f fld d).rows, r.length = (addField f fld d).cols.length := by
  unfold addField
  split
  · exact hrect
  · intro r hr
    have := appendColAux_rect (defaultAt d) 0 f.rows f.cols.length hrect r hr
    simpa using this

theorem addDefaultsGo_rect : ∀ (s : List (String × FieldDefault)) {f : Frame},
    (∀ r ∈ f.rows, r.length = f.cols.length) →
    ∀ r ∈ (addDefaultsGo s f).rows, r.length = (addDefaultsGo s f).cols.length
  | [], _, h => h
  | p :: ps, _, h => addDefaultsGo_rect ps (addField_rect p.1 p.2 h)

/-- Core stability lemma: for a rectangular frame and a column `c` whose
alias-loop behaviour is pinned down by `hk` (every mapping entry keyed `c`
is blocked by its already-present target), the normalized record of row `i`
looks up `c` to exactly the input row's value. -/
theorem normalize_lookup_stable (f : Frame) (c : String)
    (hrect : ∀ r ∈ f.rows, r.length = f.cols.length)
    (hcm : c ∈ f.cols)
    (hk : ∀ p ∈ COLUMN_MAPPING, p.1 = c →
      p.2 ∈ f.cols ∧ p.2 ∉ COLUMN_MAPPING.map Prod.fst) :
    ∀ i : ℕ, ∀ r₀, f.rows[i]? = some r₀ →
      ∃ r₁, (normalizeRecords f)[i]? = some r₁ ∧
        recGet r₁ c = recGet (f.cols.zip r₀) c := by
  intro i r₀ hr₀
  have hrowsM : (applyColumnMapping f).rows = f.rows := applyMapGo_rows _ _
  have hlenM : (applyColumnMapping f).cols.length = f.cols.length :=
    applyMapGo_cols_length _ _
  obtain ⟨hiff, hmemM⟩ := applyMapGo_stable c COLUMN_MAPPING f hcm hk
  obtain ⟨t, hcols, hrows⟩ :=
    addDefaultsGo_decompose STANDARD_FIELDS (applyColumnMapping f)
  have hrM : (applyColumnMapping f).rows[i]? = some r₀ := by
    rw [hrowsM]
    exact hr₀
  obtain ⟨tv, htv, _⟩ := hrows i r₀ hrM
  have hr0len : r₀.length = f.cols.length :=
    hrect r₀ (List.getElem?_mem hr₀)
  have hPrefLen : (applyColumnMapping f).cols.length = r₀.length := by
    rw [hlenM, hr0len]
  refine ⟨(addDefaultsGo STANDARD_FIELDS (applyColumnMapping f)).cols.zip (r₀ ++ tv),
    ?_, ?_⟩
  · unfold normalizeRecords toRecords normalizeFrame addDefaults applyColumnMapping
    rw [List.getElem?_map]
    unfold applyColumnMapping at htv
    rw [htv]
    rfl
  · rw [hcols, List.zip_append hPrefLen]
    obtain ⟨v, hv⟩ :=
      recGet_zip_isSome c (applyColumnMapping f).cols r₀ hmemM hPrefLen
    rw [recGet_append_left hv, ← hv]
    exact recGet_zip_congr c (applyColumnMapping f).cols f.cols r₀
      (by rw [hlenM]) hiff

/-- C4.  Total default coverage: for a rectangular input frame, the
Normalizer's output has one record per input row (in order); every output
record carries all seven canonical field names; and any extra column that is
neither a mapping alias nor canonical is passed through with its value
unchanged, row by row. -/
theorem normalizer_total_coverage (f : Frame)
    (hrect : ∀ r ∈ f.rows, r.length = f.cols.length) :
    (normalizeRecords f).length = f.rows.length ∧
    (∀ r ∈ normalizeRecords f, ∀ fld ∈ canonicalFieldNames,
      fld ∈ r.map Prod.fst) ∧
    (∀ c ∈ f.cols, c ∉ COLUMN_MAPPING.map Prod.fst → c ∉ canonicalFieldNames →
      ∀ i : ℕ, ∀ r₀, f.rows[i]? = some r₀ →
        ∃ r₁, (normalizeRecords f)[i]? = some r₁ ∧
          recGet r₁ c = recGet (f.cols.zip r₀) c) := by
  refine ⟨normalizeRecords_length f, ?_, ?_⟩
  · intro r hr fld hfld
    obtain ⟨row, hrow, hzip⟩ := List.mem_map.1 hr
    have hmemc : fld ∈ (normalizeFrame f).cols :=
      addDefaultsGo_mem_fields STANDARD_FIELDS (applyColumnMapping f) fld hfld
    have hrectM : ∀ r ∈ (applyColumnMapping f).rows,
        r.length = (applyColumnMapping f).cols.length := by
      unfold applyColumnMapping
      rw [applyMapGo_rows, applyMapGo_cols_length]
      exact hrect
    have hrowlen : row.length = (normalizeFrame f).cols.length :=
      addDefaultsGo_rect STANDARD_FIELDS hrectM row hrow
    rw [← hzip,
      List.map_fst_zip (normalizeFrame f).cols row (le_of_eq hrowlen.symm)]
    exact hmemc
  · intro c hcm hnk _ i r₀ hr₀
    refine normalize_lookup_stable f c hrect hcm ?_ i r₀ hr₀
    intro p hp hpc
    exact absurd (List.mem_map.2 ⟨p, hp, hpc⟩) hnk

/-- Closed instance of `normalizer_total_coverage` at a concrete one-row
frame with an alias column, a canonical column and an extra column. -/
theorem normalizer_total_coverage_witness :
    (normalizeRecords ⟨["client", "deal_size", "extra"],
        [[Value.str "ACME", Value.num 5, Value.num 9]]⟩).length =
      [[Value.str "ACME", Value.num 5, Value.num 9]].length ∧
    (∀ r ∈ normalizeRecords ⟨["client", "deal_size", "extra"],
        [[Value.str "ACME", Value.num 5, Value.num 9]]⟩,
      ∀ fld ∈ canonicalFieldNames, fld ∈ r.map Prod.fst) ∧
    (∀ c ∈ ["client", "deal_size", "extra"],
      c ∉ COLUMN_MAPPING.map Prod.fst → c ∉ canonicalFieldNames →
      ∀ i : ℕ, ∀ r₀,
        [[Value.str "ACME", Value.num 5, Value.num 9]][i]? = some r₀ →
        ∃ r₁, (normalizeRecords ⟨["client", "deal_size", "extra"],
            [[Value.str "ACME", Value.num 5, Value.num 9]]⟩)[i]? = some r₁ ∧
          recGet r₁ c =
            recGet (["client", "deal_size", "extra"].zip r₀) c) :=
  normalizer_total_coverage
    ⟨["client", "deal_size", "extra"],
     [[Value.str "ACME", Value.num 5, Value.num 9]]⟩
    (by intro r hr; simp at hr; rw [hr]; rfl)

/-- The alias dict maps each key to one target. -/
theorem COLUMN_MAPPING_functional : ∀ p ∈ COLUMN_MAPPING, ∀ q ∈ COLUMN_MAPPING,
    p.1 = q.1 → p.2 = q.2 := by decide

/-- No alias target is itself an alias key. -/
theorem COLUMN_MAPPING_targets_not_keys : ∀ p ∈ COLUMN_MAPPING,
    p.2 ∉ COLUMN_MAPPING.map Prod.fst := by decide

/-- C5 counterexample.  The claim says a row carrying both an alias and its
canonical target drops the alias's value from the output record; on the row
`{amount: 5, deal_size: 7}` the normalized record still binds `amount` to 5
(the alias column is left untouched under its own name, not dropped), while
`deal_size` keeps 7. -/
theorem dont_clobber_counterexample :
    ∃ r₁, (normalizeRecords ⟨["amount", "deal_size"],
        [[Value.num 5, Value.num 7]]⟩)[0]? = some r₁ ∧
      recGet r₁ "amount" = some (Value.num 5) ∧
      recGet r₁ "deal_size" = some (Value.num 7) := by
  refine ⟨_, rfl, ?_, ?_⟩ <;> rfl

/-- C5 (amended).  Don't-clobber: for a row whose columns contain both an
alias `a` and its canonical target `tgt`, normalization leaves the canonical
column's value unchanged and performs no rename for that alias — the alias
column is retained under its own name with its value unchanged (rather than
being dropped). -/
theorem dont_clobber (f : Frame) (a tgt : String)
    (hmap : (a, tgt) ∈ COLUMN_MAPPING)
    (ha : a ∈ f.cols) (ht : tgt ∈ f.cols)
    (hrect : ∀ r ∈ f.rows, r.length = f.cols.length) :
    ∀ i : ℕ, ∀ r₀, f.rows[i]? = some r₀ →
      ∃ r₁, (normalizeRecords f)[i]? = some r₁ ∧
        recGet r₁ tgt = recGet (f.cols.zip r₀) tgt ∧
        recGet r₁ a = recGet (f.cols.zip r₀) a := by
  intro i r₀ hr₀
  have hkt : ∀ p ∈ COLUMN_MAPPING, p.1 = tgt →
      p.2 ∈ f.cols ∧ p.2 ∉ COLUMN_MAPPING.map Prod.fst := by
    intro p hp hpc
    have h1 : p.1 ∈ COLUMN_MAPPING.map Prod.fst := List.mem_map.2 ⟨p, hp, rfl⟩
    rw [hpc] at h1
    exact absurd h1 (COLUMN_MAPPING_targets_not_keys (a, tgt) hmap)
  have hka : ∀ p ∈ COLUMN_MAPPING, p.1 = a →
      p.2 ∈ f.cols ∧ p.2 ∉ COLUMN_MAPPING.map Prod.fst := by
    intro p hp hpc
    have h2 : p.2 = tgt := COLUMN_MAPPING_functional p hp (a, tgt) hmap hpc
    rw [h2]
    exact ⟨ht, COLUMN_MAPPING_targets_not_keys (a, tgt) hmap⟩
  obtain ⟨r₁, h1, hlook1⟩ := normalize_lookup_stable f tgt hrect ht hkt i r₀ hr₀
  obtain ⟨r₂, h2, hlook2⟩ := normalize_lookup_stable f a hrect ha hka i r₀ hr₀
  have : r₁ = r₂ := by
    have := h1.symm.trans h2
    exact Option.some_injective _ this
  subst this
  exact ⟨r₁, h1, hlook1, hlook2⟩

/-- Closed instance of `dont_clobber` at the row `{amount: 5, deal_size: 7}`. -/
theorem dont_clobber_witness :
    ∃ r₁, (normalizeRecords ⟨["amount", "deal_size"],
        [[Value.num 5, Value.num 7]]⟩)[0]? = some r₁ ∧
      recGet r₁ "deal_size" =
        recGet (["amount", "deal_size"].zip [Value.num 5, Value.num 7]) "deal_size" ∧
      recGet r₁ "amount" =
        recGet (["amount", "deal_size"].zip [Value.num 5, Value.num 7]) "amount" :=
  dont_clobber ⟨["amount", "deal_size"], [[Value.num 5, Value.num 7]]⟩
    "amount" "deal_size" (by decide) (by decide) (by decide)
    (by intro r hr; simp at hr; rw [hr]; rfl) 0
    [Value.num 5, Value.num 7] (by rfl)

/-- C6.  Deal-ID generation: on a rectangular batch with no `deal_id`
column (no alias maps to `deal_id`, so none can create one), the normalized
record of row `i` carries `deal_id = "DEAL_" ++ pad4 i` — the zero-padded
4-digit sequence number of the row within the batch, starting at 0 for the
call. -/
theorem deal_id_generation (f : Frame)
    (hrect : ∀ r ∈ f.rows, r.length = f.cols.length)
    (hid : "deal_id" ∉ f.cols) :
    ∀ i : ℕ, ∀ r₀, f.rows[i]? = some r₀ →
      ∃ r₁, (normalizeRecords f)[i]? = some r₁ ∧
        recGet r₁ "deal_id" = some (.str ("DEAL_" ++ pad4 i)) := by
  intro i r₀ hr₀
  have hidM : "deal_id" ∉ (applyMapGo COLUMN_MAPPING f).cols :=
    applyMapGo_not_mem "deal_id" COLUMN_MAPPING f hid (by decide)
  have hrM : (applyMapGo COLUMN_MAPPING f).rows[i]? = some r₀ := by
    rw [applyMapGo_rows]
    exact hr₀
  have hPrefLen : (applyMapGo COLUMN_MAPPING f).cols.length = r₀.length := by
    rw [applyMapGo_cols_length, hrect r₀ (List.getElem?_mem hr₀)]
  obtain ⟨M, hMdef⟩ : ∃ M, applyMapGo COLUMN_MAPPING f = M := ⟨_, rfl⟩
  rw [hMdef] at hidM hrM hPrefLen
  have hkey : normalizeFrame f =
      addDefaultsGo
        [("customer_name", .const (.str "Unknown Customer")),
         ("deal_size", .const (.num 0)),
         ("discount_percent", .const (.num 0)),
         ("close_date", .const (.str "")),
         ("renewal", .const (.str "")),
         ("deal_status", .const (.str "Open"))]
        (Frame.mk (M.cols ++ ["deal_id"])
          (appendColAux
            (defaultAt (FieldDefault.gen (fun j => .str ("DEAL_" ++ pad4 j)))) 0
            M.rows)) := by
    unfold normalizeFrame addDefaults applyColumnMapping
    rw [hMdef]
    rw [show STANDARD_FIELDS =
        ("deal_id", FieldDefault.gen (fun j => Value.str ("DEAL_" ++ pad4 j))) ::
          [("customer_name", .const (.str "Unknown Customer")),
           ("deal_size", .const (.num 0)),
           ("discount_percent", .const (.num 0)),
           ("close_date", .const (.str "")),
           ("renewal", .const (.str "")),
           ("deal_status", .const (.str "Open"))] from rfl]
    rw [addDefaultsGo]
    unfold addField
    rw [if_neg hidM]
  obtain ⟨t, hcols, hrows⟩ := addDefaultsGo_decompose
    [("customer_name", FieldDefault.const (.str "Unknown Customer")),
     ("deal_size", .const (.num 0)),
     ("discount_percent", .const (.num 0)),
     ("close_date", .const (.str "")),
     ("renewal", .const (.str "")),
     ("deal_status", .const (.str "Open"))]
    (Frame.mk (M.cols ++ ["deal_id"])
      (appendColAux
        (defaultAt (FieldDefault.gen (fun j => .str ("DEAL_" ++ pad4 j)))) 0
        M.rows))
  have h1 : (Frame.mk (M.cols ++ ["deal_id"])
      (appendColAux
        (defaultAt (FieldDefault.gen (fun j => Value.str ("DEAL_" ++ pad4 j)))) 0
        M.rows)).rows[i]? =
      some (r₀ ++ [Value.str ("DEAL_" ++ pad4 i)]) := by
    show (appendColAux
        (defaultAt (FieldDefault.gen (fun j => Value.str ("DEAL_" ++ pad4 j)))) 0
        M.rows)[i]? = _
    rw [appendColAux_getElem, hrM]
    simp [defaultAt]
  obtain ⟨tv, htv, _⟩ := hrows i (r₀ ++ [Value.str ("DEAL_" ++ pad4 i)]) h1
  have hthis : (normalizeFrame f).rows[i]? =
      some ((r₀ ++ [Value.str ("DEAL_" ++ pad4 i)]) ++ tv) := by
    rw [hkey]
    exact htv
  refine ⟨(normalizeFrame f).cols.zip ((r₀ ++ [Value.str ("DEAL_" ++ pad4 i)]) ++ tv),
    ?_, ?_⟩
  · unfold normalizeRecords toRecords
    rw [List.getElem?_map, hthis]
    rfl
  · have hcols2 : (normalizeFrame f).cols = (M.cols ++ ["deal_id"]) ++ t := by
      rw [hkey, hcols]
    rw [hcols2, List.zip_append (by simp [hPrefLen]),
      List.zip_append hPrefLen]
    rw [List.append_assoc]
    rw [recGet_append_none (recGet_zip_none "deal_id" M.cols r₀ hidM)]
    simp [List.zip, recGet]

/-- Closed instance of `deal_id_generation`: row 1 of a two-row batch with
only an unrelated column gets `deal_id = "DEAL_0001"`. -/
theorem deal_id_generation_witness :
    ∃ r₁, (normalizeRecords ⟨["x"], [[Value.num 1], [Value.num 2]]⟩)[1]? =
        some r₁ ∧
      recGet r₁ "deal_id" = some (.str ("DEAL_" ++ pad4 1)) :=
  deal_id_generation ⟨["x"], [[Value.num 1], [Value.num 2]]⟩
    (by intro r hr; simp at hr; rcases hr with h | h <;> rw [h] <;> rfl)
    (by decide) 1 [Value.num 2] (by rfl)

/-- C8 counterexample.  The claim says a provider response that does not
parse as the expected report shape results in the Rule Engine's report being
returned; but on a 200 response whose body is the valid JSON `[]` — not
report-shaped — the dispatcher returns that JSON as-is, not the engine's
report (the code only falls back on a `json.loads` failure). -/
theorem dispatcher_routing_counterexample :
    analyze_deals "k" (.resp 200 (some (Json.arr []))) 0 [] =
      .ok (Json.arr []) ∧
    expectedReportShape (Json.arr []) = false ∧
    (mock_analysis 0 []).map Report.toJson =
      .ok (Report.toJson ⟨⟨0, 0, 0⟩, [], RECOMMENDATIONS⟩) ∧
    Json.arr [] ≠ Report.toJson ⟨⟨0, 0, 0⟩, [], RECOMMENDATIONS⟩ :=
  ⟨rfl, rfl, rfl, fun h => Json.noConfusion h⟩

/-- C8 (amended).  Dispatcher routing: with no credential the dispatcher
returns exactly the Rule Engine's report; with a credential, a provider
exception, a non-success status, or a body that fails JSON parsing all fall
back to the Rule Engine's report; a 200 body that parses as JSON is
returned as-is, whatever its shape; and whenever the Rule Engine succeeds
the dispatcher never raises, whatever the provider did. -/
theorem dispatcher_routing (key : String) (post : PostResult) (now : ℚ)
    (data : List Record) :
    (key = "" → analyze_deals key post now data =
      (mock_analysis now data).map Report.toJson) ∧
    (post = .exn → analyze_deals key post now data =
      (mock_analysis now data).map Report.toJson) ∧
    (∀ status content, post = .resp status content → status ≠ 200 →
      analyze_deals key post now data =
        (mock_analysis now data).map Report.toJson) ∧
    (post = .resp 200 none → analyze_deals key post now data =
      (mock_analysis now data).map Report.toJson) ∧
    (∀ j, post = .resp 200 (some j) → key ≠ "" →
      analyze_deals key post now data = .ok j) ∧
    (∀ r, mock_analysis now data = .ok r →
      ∃ jr, analyze_deals key post now data = .ok jr) := by
  refine ⟨?_, ?_, ?_, ?_, ?_, ?_⟩
  · intro hk
    unfold analyze_deals
    rw [if_pos hk]
  · intro hp
    subst hp
    unfold analyze_deals
    split <;> rfl
  · intro status content hp hs
    subst hp
    unfold analyze_deals
    split
    · rfl
    · simp [hs]
  · intro hp
    subst hp
    unfold analyze_deals
    split <;> simp
  · intro j hp hk
    subst hp
    unfold analyze_deals
    simp [hk]
  · intro r hr
    unfold analyze_deals
    by_cases hk : key = ""
    · exact ⟨Report.toJson r, by simp [hk, hr, Except.map]⟩
    · cases post with
      | exn => exact ⟨Report.toJson r, by simp [hk, hr, Except.map]⟩
      | resp status content =>
        by_cases hs : status = 200
        · subst hs
          cases content with
          | none => exact ⟨Report.toJson r, by simp [hk, hr, Except.map]⟩
          | some j => exact ⟨j, by simp [hk]⟩
        · exact ⟨Report.toJson r, by simp [hk, hs, hr, Except.map]⟩

/-- C9 counterexample.  The Alias Mapping sends `price` to `unit_price`,
which is not one of the seven canonical field names — so not every alias
target is canonical, and resolution can rename `price` to a non-canonical
column name. -/
theorem alias_target_counterexample :
    ("price", "unit_price") ∈ COLUMN_MAPPING ∧
    "unit_price" ∉ canonicalFieldNames := by decide

/-- C9 (amended).  Every alias target except `unit_price` (the target of
the `price` alias) is one of the seven canonical field names: filtering the
mapping for entries with non-canonical targets leaves exactly the
`price ↦ unit_price` entry. -/
theorem alias_targets_canonical_except_price :
    COLUMN_MAPPING.filter (fun p => decide (p.2 ∉ canonicalFieldNames)) =
      [("price", "unit_price")] := by decide

end RevenueWatchdog
